import Mathlib

/-!
Shallow embedding of the rider-page extraction rules of `pcs_scraper/rider.py`.

Python-level string primitives (slicing with negative indices, `str.find`,
`str.split`, `int(...)`, `float(...)`, `str.replace`, negative list indexing)
are modelled first; each extractor of the `Rider` class is then translated
over explicit inputs standing for the HTML fragments it reads.

Conventions: a value of type `Option A` models a Python call that can raise
(`none` means an exception escaped); `Option (Option A)` models a call that can
raise (`none`) or return the Python value `None` (`some none`).
Numeric results of `float(...)` are modelled as exact rationals; the
whole-number tokens the extractors actually parse are exact in this model.
-/

/-- Prefix test on character lists: `matchesAt pat l` holds when `pat` occurs
at the start of `l`. -/
def matchesAt : List Char → List Char → Bool
  | [], _ => true
  | _ :: _, [] => false
  | p :: ps, c :: cs => p == c && matchesAt ps cs

/-- Substring occurrence on character lists, scanning every start position. -/
def hasSub (pat : List Char) : List Char → Bool
  | [] => matchesAt pat []
  | c :: cs => matchesAt pat (c :: cs) || hasSub pat cs

/-- Python `pat in s` for strings (substring containment). -/
def pyContains (s pat : String) : Bool := hasSub pat.data s.data

/-- First index at which character `c` occurs, if any. -/
def findCharAux (c : Char) : List Char → Nat → Option Nat
  | [], _ => none
  | d :: ds, i => if d == c then some i else findCharAux c ds (i + 1)

/-- Python `s.find(c)` for a single character: first index, `-1` if absent. -/
def pyFindChar (s : String) (c : Char) : Int :=
  match findCharAux c s.data 0 with
  | none => -1
  | some i => (i : Int)

/-- Python slice-bound normalisation: negative indices count from the end
(clamped below at 0), non-negative ones are clamped above at the length. -/
def sliceLo (n : Nat) (i : Int) : Nat :=
  if i < 0 then ((n : Int) + i).toNat else min i.toNat n

/-- Python slice `l[a:b]` on character lists. -/
def pySliceChars (l : List Char) (a b : Int) : List Char :=
  (l.take (sliceLo l.length b)).drop (sliceLo l.length a)

/-- Python slice `s[a:b]` on strings. -/
def pySlice (s : String) (a b : Int) : String :=
  ⟨pySliceChars s.data a b⟩

/-- Python slice `s[a:]` on strings. -/
def pySliceFrom (s : String) (a : Int) : String :=
  ⟨s.data.drop (sliceLo s.data.length a)⟩

/-- Python list indexing `l[i]` with negative-index support; `none` models
an `IndexError`. -/
def pyGet {α : Type} (l : List α) (i : Int) : Option α :=
  if i < 0 then
    if (-i).toNat ≤ l.length then l.get? (l.length - (-i).toNat) else none
  else l.get? i.toNat

/-- Whitespace test used by Python `str.strip` and `str.split`. -/
def isSpaceCh (c : Char) : Bool := c.isWhitespace

/-- Python `s.strip()` on character lists. -/
def trimWs (l : List Char) : List Char :=
  ((l.dropWhile isSpaceCh).reverse.dropWhile isSpaceCh).reverse

/-- Digit-run validity for Python `int(...)`: digits with single underscores
allowed only between digits. The flag records that a digit is required next
(at the start, or just after an underscore). -/
def usDigitsAux : List Char → Bool → Bool
  | [], afterSep => !afterSep
  | c :: rest, afterSep =>
    if c.isDigit then usDigitsAux rest false
    else if c == '_' && !afterSep then usDigitsAux rest true
    else false

/-- A nonempty digit run with legally placed underscores. -/
def usDigitsOK (l : List Char) : Bool := usDigitsAux l true

/-- Decimal value of a digit list (non-digits contribute via filtering by the
callers). -/
def natValOfDigits (l : List Char) : Nat :=
  l.foldl (fun a c => 10 * a + (c.toNat - 48)) 0

/-- Unsigned part of Python `int(...)`: validity check then decimal value of
the digits (underscores dropped). -/
def pyIntBody (l : List Char) : Option Int :=
  if usDigitsOK l then some ((natValOfDigits (l.filter Char.isDigit) : Nat) : Int)
  else none

/-- Python `int(...)` after stripping: optional sign, then digit run. -/
def pyIntTrimmed : List Char → Option Int
  | [] => none
  | c :: rest =>
    if c == '+' then pyIntBody rest
    else if c == '-' then (pyIntBody rest).map (fun n => -n)
    else pyIntBody (c :: rest)

/-- Python `int(s)` for decimal strings; `none` models a `ValueError`. -/
def pyInt (s : String) : Option Int := pyIntTrimmed (trimWs s.data)

/-- Tail of Python `float(...)` parsing once the integer digits `ip` have been
taken and `rest` is what follows: either nothing, or a point and fraction
digits, at least one digit overall. Exponents, infinities and NaN are not
modelled (never produced by the page texts concerned). -/
def pyFloatSplit (ip rest : List Char) : Option ℚ :=
  match rest with
  | [] => if ip.isEmpty then none else some ((natValOfDigits ip : Nat) : ℚ)
  | c :: fp =>
    if c == '.' then
      if fp.all Char.isDigit && (!ip.isEmpty || !fp.isEmpty) then
        some (((natValOfDigits ip : Nat) : ℚ)
          + ((natValOfDigits fp : Nat) : ℚ) / (10 : ℚ) ^ fp.length)
      else none
    else none

/-- Unsigned part of Python `float(...)`. -/
def pyFloatBody (body : List Char) : Option ℚ :=
  pyFloatSplit (body.takeWhile Char.isDigit) (body.dropWhile Char.isDigit)

/-- Python `float(...)` after stripping: optional sign then decimal form. -/
def pyFloatTrimmed : List Char → Option ℚ
  | [] => none
  | c :: rest =>
    if c == '+' then pyFloatBody rest
    else if c == '-' then (pyFloatBody rest).map (fun q => -q)
    else pyFloatBody (c :: rest)

/-- Python `float(s)` for decimal strings; `none` models a `ValueError`. -/
def pyFloat (s : String) : Option ℚ := pyFloatTrimmed (trimWs s.data)

/-- Python `s.isdigit()` (ASCII digits; the page texts concerned are ASCII). -/
def pyIsDigit (t : String) : Bool := !t.data.isEmpty && t.data.all Char.isDigit

/-- Token accumulator for Python `s.split()`: `cur` holds the pending token's
characters in reverse. -/
def wsTokens : List Char → List Char → List (List Char)
  | [], cur => if cur.isEmpty then [] else [cur.reverse]
  | c :: cs, cur =>
    if isSpaceCh c then
      if cur.isEmpty then wsTokens cs [] else cur.reverse :: wsTokens cs []
    else wsTokens cs (c :: cur)

/-- Python `s.split()`: split on whitespace runs, dropping empty pieces. -/
def pySplitWs (s : String) : List String :=
  (wsTokens s.data []).map (fun l => ⟨l⟩)

/-- Separator accumulator for Python `s.split(sep)` with a one-character
separator; empty pieces are kept. -/
def sepTokens (sep : Char) : List Char → List Char → List String
  | [], cur => [⟨cur.reverse⟩]
  | c :: cs, cur =>
    if c == sep then (⟨cur.reverse⟩ : String) :: sepTokens sep cs []
    else sepTokens sep cs (c :: cur)

/-- Python `s.split(sep)` for a one-character separator. -/
def pySplitChar (s : String) (sep : Char) : List String :=
  sepTokens sep s.data []

/-- One pass of Python `str.replace`: left-to-right, non-overlapping; the
fuel is the input length, enough since the pattern is nonempty. -/
def replaceAux (pat rep : List Char) : Nat → List Char → List Char
  | 0, l => l
  | _ + 1, [] => []
  | fuel + 1, c :: cs =>
    if matchesAt pat (c :: cs) then
      rep ++ replaceAux pat rep fuel ((c :: cs).drop pat.length)
    else c :: replaceAux pat rep fuel cs

/-- Python `s.replace(pat, rep)` (all non-overlapping occurrences, one pass). -/
def pyReplace (s pat rep : String) : String :=
  ⟨replaceAux pat.data rep.data s.data.length s.data⟩

/-- Python `str(x)` on an optional string: `str(None)` is the text `None`. -/
def pyStr : Option String → String
  | none => "None"
  | some s => s

/-- Python `type(x) == None`: compares the type object of `x` with `None`,
which is never true — the source uses this as its (broken) absence test. -/
def pyTypeEqNone {α : Type} (_x : Option α) : Bool := false

/-- BeautifulSoup `find(string=re.compile(pat))` over the text nodes of a
block: first node whose text contains `pat`. -/
def findNode (nodes : List String) (pat : String) : Option String :=
  nodes.find? (fun n => pyContains n pat)

/-- Sequencing of fallible element processing, as a Python loop that raises on
the first failing element. -/
def listMapM {α β : Type} (f : α → Option β) : List α → Option (List β)
  | [] => some []
  | a :: l => do
    let b ← f a
    let bs ← listMapM f l
    pure (b :: bs)

/-- Rider.get_name, lines 198 to 214: the page-title heading text, with a
single `replace` pass turning double spaces into single spaces. -/
def get_name (title : String) : String :=
  if pyContains title ("  ") then pyReplace title ("  ") (" ") else title

/-- Rider.get_age, lines 241 to 259, over the info block's full text: slice
between the first parentheses as located by `str.find` (`-1` when absent) and
convert with `int(...)`; `none` models the `ValueError`. -/
def get_age (t : String) : Option Int :=
  let s := pyFindChar t '('
  let e := pyFindChar t ')'
  pyInt (pySlice t (s + 1) e)

/-- Rider.get_height, lines 261 to 283, over the info block's text nodes: find
the first node containing " m"; the `type(...) == None` test never fires, so
the found node (or the text `None`) is split and its first token parsed with
`float(...)`. `none` models an escaped exception, `some none` a returned
Python `None`. -/
def get_height (nodes : List String) : Option (Option ℚ) :=
  let found := findNode nodes (" m")
  if pyTypeEqNone found then some none
  else
    match pySplitWs (pyStr found) with
    | [] => none
    | tok :: _ => (pyFloat tok).map (fun v => some v)

/-- Rider.get_weight, lines 285 to 307, over the info block's text nodes: find
the first node containing " kg"; the `type(...) == None` test never fires, so
the found node (or the text `None`) is split, tokens are filtered by
`isdigit`, and the first survivor parsed with `float(...)` (which cannot fail
on a digit token, so mapping only the first is faithful); an empty filtered
list models the `IndexError` of `[...][0]`. -/
def get_weight (nodes : List String) : Option (Option ℚ) :=
  let found := findNode nodes (" kg")
  if pyTypeEqNone found then some none
  else
    match (pySplitWs (pyStr found)).filter pyIsDigit with
    | [] => none
    | tok :: _ => (pyFloat tok).map (fun v => some v)

/-- One entry of the social-links list: its href attribute and the texts of
its direct children (BeautifulSoup tag contents that are strings). -/
structure SocialLink where
  href : String
  childTexts : List String

/-- Position of the last '/' in a string, via the source's
`[i for i, x in enumerate(s) if x == '/'][-1]`; `none` models the
`IndexError` when there is no slash. -/
def lastSlashIdx (s : String) : Option Nat :=
  ((s.data.enum.filter (fun p => p.2 == '/')).getLast?).map (fun p => p.1)

/-- Loop body of Rider.get_strava: Python `'strava' in link` on a tag tests
membership of the string among the tag's children, so the accumulator is
overwritten at each entry having a child text equal to `strava`. -/
def stravaLoop : List SocialLink → String × String → Option (String × String)
  | [], acc => some acc
  | l :: rest, acc =>
    if l.childTexts.contains ("strava") then
      match lastSlashIdx l.href with
      | none => none
      | some i => stravaLoop rest (l.href, pySliceFrom l.href ((i : Int) + 1))
    else stravaLoop rest acc

/-- Rider.get_strava, lines 309 to 340: scan the social links starting from
empty link and id. -/
def get_strava (links : List SocialLink) : Option (String × String) :=
  stravaLoop links (("" : String), ("" : String))

/-- Rider.get_ranks, lines 342 to 370, over the texts of the rank elements:
the loop converts element 0 to the pcs rank and element 1 to the uci rank and
ignores the rest; a missing element leaves its variable unbound (`NameError`)
and a bad text raises `ValueError`, both modelled by `none`. -/
def get_ranks (links : List String) : Option (Int × Int) := do
  let t0 ← links.get? 0
  let p ← pyInt t0
  let t1 ← links.get? 1
  let u ← pyInt t1
  pure (p, u)

/-- One entry of the team-history list: season label, first anchor's text and
first anchor's href. -/
structure TeamEntry where
  season : String
  anchorText : String
  anchorHref : String

/-- Row built by Rider.get_team_history, lines 82 to 95, for one entry:
season, team name, href, then `href[5:-5]` and `href[-4:]`. -/
def teamRecord (e : TeamEntry) : List String :=
  [e.season, e.anchorText, e.anchorHref,
    pySlice e.anchorHref 5 (-5), pySliceFrom e.anchorHref (-4)]

/-- Rider.get_team_history, lines 65 to 102: one record per entry, in
document order. -/
def get_team_history (entries : List TeamEntry) : List (List String) :=
  entries.map teamRecord

/-- One table cell of a race-results row: its text, and the text and href of
its anchors when present (`find('a')` and `find('a', href=True)`). -/
structure Cell where
  text : String
  anchorText : Option String
  anchorHref : Option String
deriving DecidableEq

/-- Race-column handling of Rider.get_race_history, lines 171 to 176: anchor
text, href, and the pieces of the href split on `/` at Python indices `1` and
`-2`; `none` models `AttributeError` or `IndexError`. -/
def raceFields (c : Cell) : Option (List String) :=
  match c.anchorText with
  | none => none
  | some nm =>
    match c.anchorHref with
    | none => none
    | some href =>
      let segs := pySplitChar href '/'
      match pyGet segs 1 with
      | none => none
      | some pn =>
        match pyGet segs (-2) with
        | none => none
        | some py => some [nm, href, pn, py]

/-- Empty cell text is stored as the "-" sentinel, lines 180 to 182. -/
def dashIfEmpty (t : String) : String := if t = "" then "-" else t

/-- Contribution of column `j` to a race record: the row-index column is
dropped, the race column contributes four fields, every other column one. -/
def cellFields (j : Nat) (c : Cell) : Option (List String) :=
  if j = 0 then some []
  else if j = 3 then raceFields c
  else some [dashIfEmpty c.text]

/-- Column loop of Rider.get_race_history, lines 166 to 183, from column
index `j` on. -/
def processCells : Nat → List Cell → Option (List String)
  | _, [] => some []
  | j, c :: rest => do
    let hd ← cellFields j c
    let tl ← processCells (j + 1) rest
    pure (hd ++ tl)

/-- One row of the results table becomes one record, lines 160 to 183. -/
def processRow (cells : List Cell) : Option (List String) :=
  processCells 0 cells

/-- Row loop of Rider.get_race_history, lines 154 to 186: every row of a page
except the one at index `len - 1` is processed, in order. -/
def processPage (rows : List (List Cell)) : Option (List (List String)) :=
  listMapM (fun p => processRow p.2)
    (rows.enum.filter (fun p => p.1 != rows.length - 1))

/-- Rider.get_race_history, lines 136 to 196, over the fetched pages in
ascending offset order: rows of all pages are accumulated into one flat
list. -/
def get_race_history (pages : List (List (List Cell))) :
    Option (List (List String)) :=
  (listMapM processPage pages).map List.flatten

/-- Claim-side predicate (C2's wording): the text between the first `(` and
the first `)` exists and is a nonempty run of digits. -/
def hasParenDigitGroup (t : String) : Bool :=
  let s := pyFindChar t '('
  let e := pyFindChar t ')'
  decide (0 ≤ s) && decide (s < e) && pyIsDigit (pySlice t (s + 1) e)

/-- Number of record fields contributed by results-table column `j`. -/
def colWidth (j : Nat) : Nat := if j = 0 then 0 else if j = 3 then 4 else 1

/-- Record position receiving the value of the `i`-th cell when the column
loop starts at column `k`. -/
def posFrom (k : Nat) : Nat → Nat
  | 0 => 0
  | i + 1 => colWidth k + posFrom (k + 1) i

/-- Concrete two-page results fixture (each page ends in the trailing
artifact row the source site appends) used to witness the pagination
claim. -/
def racePages : List (List (List Cell)) :=
  [[[⟨("1"), none, none⟩, ⟨("2023-07-01"), none, none⟩, ⟨("5"), none, none⟩,
     ⟨(""), some ("Tour"), some ("race/tour/2023/gc")⟩, ⟨(""), none, none⟩],
    [⟨("x"), none, none⟩, ⟨("x"), none, none⟩, ⟨("x"), none, none⟩,
     ⟨("x"), none, none⟩, ⟨("x"), none, none⟩]],
   [[⟨("1"), none, none⟩, ⟨("2022-07-01"), none, none⟩, ⟨("8"), none, none⟩,
     ⟨(""), some ("Giro"), some ("race/giro/2022/gc")⟩, ⟨("12"), none, none⟩],
    [⟨("2"), none, none⟩, ⟨("2022-06-01"), none, none⟩, ⟨("1"), none, none⟩,
     ⟨(""), some ("Dauphine"), some ("race/dauphine/2022/stage-1")⟩,
     ⟨(""), none, none⟩],
    [⟨("y"), none, none⟩, ⟨("y"), none, none⟩, ⟨("y"), none, none⟩,
     ⟨("y"), none, none⟩, ⟨("y"), none, none⟩]]]

/-- The records get_race_history extracts from racePages. -/
def raceOut : List (List String) :=
  [[("2023-07-01"), ("5"), ("Tour"), ("race/tour/2023/gc"), ("tour"), ("2023"), ("-")],
   [("2022-07-01"), ("8"), ("Giro"), ("race/giro/2022/gc"), ("giro"), ("2022"), ("12")],
   [("2022-06-01"), ("1"), ("Dauphine"), ("race/dauphine/2022/stage-1"),
    ("dauphine"), ("2022"), ("-")]]

/-- C1: the claim says that with no " m" or " kg" text in the info block,
get_height and get_weight return `None` without raising; the code's
`type(x) == None` test is always false, so both instead raise (`ValueError`
from `float('None')`, `IndexError` from indexing an empty list), contradicting
their own docstrings: at such an info block both calls end in an exception
(`none`), not a returned `None` (`some none`). -/
theorem c1_absent_raises :
    get_height [("(28)"), ("Belgium")] = none ∧
    get_weight [("(28)"), ("Belgium")] = none := by
  exact ⟨rfl, rfl⟩

/-- C2 counterexample: the claim says get_age fails with an error whenever the
info text has no parenthesized all-digit group; but on the text `1990`, with
both parentheses absent, `str.find` returns `-1` for each, the code slices
`text[0:-1]` and happily returns the integer 199. -/
theorem c2_counterexample :
    hasParenDigitGroup ("1990") = false ∧ get_age ("1990") = some 199 := by
  exact ⟨rfl, rfl⟩

/-- C4 counterexample: on the claim's link `/team/example-team-2023` the
source's derivation `href[5:-5]` keeps the leading slash, giving
`/example-team` rather than the claimed `example-team` (the year is right). -/
theorem c4_counterexample :
    get_team_history [⟨("2023"), ("Example Team"), ("/team/example-team-2023")⟩] =
      [[("2023"), ("Example Team"), ("/team/example-team-2023"),
        ("/example-team"), ("2023")]] ∧
    ("/example-team" : String) ≠ ("example-team" : String) := by
  exact ⟨rfl, by decide⟩

/-- C4 amended: on the link `/team/example-team-2023` the derivation used by
get_team_history (`href[5:-5]` and `href[-4:]`) yields identifier
`/example-team` and year `2023`; the claimed identifier `example-team`
results for the slash-less relative link `team/example-team-2023`, whose
5-character prefix is `team/`. -/
theorem c4_team_slice_amended :
    get_team_history [⟨("2023"), ("Example Team"), ("/team/example-team-2023")⟩] =
      [[("2023"), ("Example Team"), ("/team/example-team-2023"),
        ("/example-team"), ("2023")]] ∧
    get_team_history [⟨("2023"), ("Example Team"), ("team/example-team-2023")⟩] =
      [[("2023"), ("Example Team"), ("team/example-team-2023"),
        ("example-team"), ("2023")]] := by
  exact ⟨rfl, rfl⟩

/-- C6 counterexample: the claim says an entry whose link contains the
substring `strava` is returned; but Python's `'strava' in link` on a tag
tests membership among the tag's children, so an anchor with href
`https://www.strava.com/athletes/123` and text `Strava` is not matched and
get_strava returns two empty strings. -/
theorem c6_counterexample :
    pyContains ("https://www.strava.com/athletes/123") ("strava") = true ∧
    get_strava [⟨("https://www.strava.com/athletes/123"), [("Strava")]⟩] =
      some (("" : String), ("" : String)) := by
  exact ⟨rfl, rfl⟩

/-- C9 counterexample: the claim says no two consecutive spaces survive in
get_name's result; but `replace('  ', ' ')` is a single non-overlapping pass,
so the three spaces of `John   Doe` leave `John  Doe`, which still contains
a double space. -/
theorem c9_counterexample :
    get_name ("John   Doe") = ("John  Doe" : String) ∧
    pyContains (get_name ("John   Doe")) ("  ") = true := by
  exact ⟨rfl, rfl⟩

theorem digit_not_ws (c : Char) (h : c.isDigit = true) : isSpaceCh c = false := by
  cases hsp : isSpaceCh c with
  | false => rfl
  | true =>
    exfalso
    simp only [isSpaceCh, Char.isWhitespace, Bool.or_eq_true, decide_eq_true_eq] at hsp
    rcases hsp with ((rfl | rfl) | rfl) | rfl <;> exact absurd h (by decide)

theorem digit_ne_char (c d : Char) (h : c.isDigit = true) (hd : d.isDigit = false) :
    (c == d) = false := by
  cases heq : c == d with
  | false => rfl
  | true =>
    have hcd : c = d := eq_of_beq heq
    subst hcd
    simp [h] at hd

theorem dropWhile_cons_false {α : Type} (p : α → Bool) (c : α) (l : List α)
    (h : p c = false) : (c :: l).dropWhile p = c :: l := by
  simp [List.dropWhile, h]

theorem trimWs_eq_self (l : List Char) (h : ∀ a ∈ l, isSpaceCh a = false) :
    trimWs l = l := by
  unfold trimWs
  cases l with
  | nil => rfl
  | cons c cs =>
    rw [dropWhile_cons_false _ _ _ (h c (List.mem_cons_self c cs))]
    cases hr : (c :: cs).reverse with
    | nil => exact absurd hr (by simp)
    | cons d ds =>
      have hd : d ∈ c :: cs := by
        rw [← List.mem_reverse, hr]
        exact List.mem_cons_self d ds
      rw [dropWhile_cons_false _ _ _ (h d hd), ← hr, List.reverse_reverse]

theorem usDigitsAux_all_false (l : List Char) (h : ∀ a ∈ l, a.isDigit = true) :
    usDigitsAux l false = true := by
  induction l with
  | nil => rfl
  | cons c cs ih =>
    simp only [usDigitsAux, h c (List.mem_cons_self c cs), if_true]
    exact ih (fun a ha => h a (List.mem_cons_of_mem c ha))

theorem usDigitsOK_digits (c : Char) (cs : List Char)
    (h : ∀ a ∈ c :: cs, a.isDigit = true) : usDigitsOK (c :: cs) = true := by
  simp only [usDigitsOK, usDigitsAux, h c (List.mem_cons_self c cs), if_true]
  exact usDigitsAux_all_false cs (fun a ha => h a (List.mem_cons_of_mem c ha))

theorem pyInt_digits (s : String) (h : pyIsDigit s = true) :
    pyInt s = some ((natValOfDigits s.data : Nat) : Int) := by
  simp only [pyIsDigit, Bool.and_eq_true] at h
  obtain ⟨hne, hall⟩ := h
  have hmem : ∀ a ∈ s.data, Char.isDigit a = true := List.all_eq_true.mp hall
  have htrim : trimWs s.data = s.data :=
    trimWs_eq_self _ (fun a ha => digit_not_ws a (hmem a ha))
  unfold pyInt
  rw [htrim]
  cases hd : s.data with
  | nil => simp [hd] at hne
  | cons c cs =>
    have hmem2 : ∀ a ∈ c :: cs, Char.isDigit a = true := by rw [← hd]; exact hmem
    have hc : c.isDigit = true := hmem2 c (List.mem_cons_self c cs)
    simp only [pyIntTrimmed,
      digit_ne_char c '+' hc (by decide), digit_ne_char c '-' hc (by decide),
      Bool.false_eq_true, if_false, pyIntBody, usDigitsOK_digits c cs hmem2, if_true]
    have hfilter : (c :: cs).filter Char.isDigit = c :: cs :=
      List.filter_eq_self.mpr hmem2
    rw [hfilter]

theorem takeWhile_of_all {α : Type} (p : α → Bool) (l : List α)
    (h : ∀ a ∈ l, p a = true) : l.takeWhile p = l := by
  induction l with
  | nil => rfl
  | cons c cs ih =>
    simp only [List.takeWhile_cons, h c (List.mem_cons_self c cs), if_true]
    rw [ih (fun a ha => h a (List.mem_cons_of_mem c ha))]

theorem dropWhile_of_all {α : Type} (p : α → Bool) (l : List α)
    (h : ∀ a ∈ l, p a = true) : l.dropWhile p = [] := by
  induction l with
  | nil => rfl
  | cons c cs ih =>
    simp only [List.dropWhile_cons, h c (List.mem_cons_self c cs), if_true]
    exact ih (fun a ha => h a (List.mem_cons_of_mem c ha))

theorem pyFloat_digits (s : String) (h : pyIsDigit s = true) :
    pyFloat s = some ((natValOfDigits s.data : Nat) : ℚ) := by
  simp only [pyIsDigit, Bool.and_eq_true] at h
  obtain ⟨hne, hall⟩ := h
  have hmem : ∀ a ∈ s.data, Char.isDigit a = true := List.all_eq_true.mp hall
  have htrim : trimWs s.data = s.data :=
    trimWs_eq_self _ (fun a ha => digit_not_ws a (hmem a ha))
  unfold pyFloat
  rw [htrim]
  cases hd : s.data with
  | nil => simp [hd] at hne
  | cons c cs =>
    have hmem2 : ∀ a ∈ c :: cs, Char.isDigit a = true := by rw [← hd]; exact hmem
    have hc : c.isDigit = true := hmem2 c (List.mem_cons_self c cs)
    simp only [pyFloatTrimmed,
      digit_ne_char c '+' hc (by decide), digit_ne_char c '-' hc (by decide),
      Bool.false_eq_true, if_false]
    unfold pyFloatBody
    rw [takeWhile_of_all _ _ hmem2, dropWhile_of_all _ _ hmem2]
    simp only [pyFloatSplit, List.isEmpty_cons, Bool.false_eq_true, if_false]

/-- C2 amended: if the info text has a parenthesized group whose content (the
text between the first `(` and the first `)`) is a nonempty run of digits,
get_age returns that run's value; but absence of such a group need not raise:
the code slices between the `str.find` results (`-1` when a parenthesis is
absent) and fails only when that slice does not parse as a Python integer
(for instance `1990` with no parentheses yields 199, see the
counterexample). -/
theorem c2_paren_digit_age (t : String) (h : hasParenDigitGroup t = true) :
    get_age t = some ((natValOfDigits
      (pySlice t (pyFindChar t '(' + 1) (pyFindChar t ')')).data : Nat) : Int) := by
  simp only [hasParenDigitGroup, Bool.and_eq_true] at h
  exact pyInt_digits _ h.2

/-- Witness for c2_paren_digit_age at a concrete info text. -/
theorem c2_age_witness : get_age ("name ... (28) more") = some 28 := by
  rw [c2_paren_digit_age ("name ... (28) more") (by decide)]
  decide

/-- C5: for a found info-block text containing a " kg" token, get_weight
returns the first purely-numeric whitespace-separated token of that text,
parsed as a (rational-modelled) float: in particular `68 kg` yields 68, and
a fractional token such as `68.5` passes no `isdigit` test, so extraction
fails with an error. -/
theorem c5_weight_first_digit_token :
    (∀ nodes s tok rest, findNode nodes (" kg") = some s →
        (pySplitWs s).filter pyIsDigit = tok :: rest →
        get_weight nodes = some (some ((natValOfDigits tok.data : Nat) : ℚ))) ∧
    get_weight [("68 kg")] = some (some 68) ∧
    get_weight [("68.5 kg")] = none := by
  refine ⟨?_, by decide, by decide⟩
  intro nodes s tok rest hfind hfilter
  have htok : pyIsDigit tok = true := by
    have hmem : tok ∈ (pySplitWs s).filter pyIsDigit := by
      rw [hfilter]
      exact List.mem_cons_self tok rest
    exact (List.mem_filter.mp hmem).2
  simp only [get_weight, hfind, pyTypeEqNone, Bool.false_eq_true, if_false, pyStr]
  rw [hfilter]
  show Option.map (fun v => some v) (pyFloat tok) =
    some (some ((natValOfDigits tok.data : Nat) : ℚ))
  rw [pyFloat_digits tok htok]
  rfl

/-- Witness for the universally quantified part of c5_weight_first_digit_token
at a concrete info block. -/
theorem c5_weight_witness : get_weight [("70 kg")] = some (some 70) := by
  rw [c5_weight_first_digit_token.1 [("70 kg")] ("70 kg") ("70") [] (by decide) (by decide)]
  decide

/-- C8: with at least two rank elements whose texts parse as integers,
get_ranks returns the pair of the first element's value (pcs) and the second
element's value (uci). -/
theorem c8_ranks_first_two (links : List String) (t0 t1 : String) (p u : Int)
    (h0 : links[0]? = some t0) (h1 : links[1]? = some t1)
    (hp : pyInt t0 = some p) (hu : pyInt t1 = some u) :
    get_ranks links = some (p, u) := by
  simp [get_ranks, h0, h1, hp, hu]

/-- Witness for c8_ranks_first_two at a concrete rankings list. -/
theorem c8_ranks_witness : get_ranks [("12"), ("34")] = some (12, 34) :=
  c8_ranks_first_two [("12"), ("34")] ("12") ("34") 12 34 rfl rfl (by decide) (by decide)

/-- C10: with more than two rank elements, all of whose texts parse as
integers, get_ranks raises nothing: it returns a value, the same one it
returns on the first two elements alone — elements after the second are
ignored. -/
theorem c10_ranks_extra_ignored (links : List String)
    (hlen : 2 < links.length)
    (hall : ∀ t ∈ links, (pyInt t).isSome = true) :
    get_ranks links = get_ranks (links.take 2) ∧ (get_ranks links).isSome = true := by
  match links, hlen with
  | t0 :: t1 :: rest, _ =>
    obtain ⟨p, hp⟩ := Option.isSome_iff_exists.mp
      (hall t0 (List.mem_cons_self t0 (t1 :: rest)))
    obtain ⟨u, hu⟩ := Option.isSome_iff_exists.mp
      (hall t1 (List.mem_cons_of_mem t0 (List.mem_cons_self t1 rest)))
    constructor
    · simp [get_ranks, hp, hu]
    · simp [get_ranks, hp, hu]

/-- Witness for c10_ranks_extra_ignored at a concrete three-element rankings
list. -/
theorem c10_ranks_witness :
    get_ranks [("7"), ("9"), ("11")] = get_ranks ([("7"), ("9"), ("11")].take 2) ∧
    (get_ranks [("7"), ("9"), ("11")]).isSome = true :=
  c10_ranks_extra_ignored [("7"), ("9"), ("11")] (by decide) (by decide)

theorem stravaLoop_no_match (links : List SocialLink) (acc : String × String)
    (h : ∀ l ∈ links, l.childTexts.contains ("strava") = false) :
    stravaLoop links acc = some acc := by
  induction links with
  | nil => rfl
  | cons l rest ih =>
    simp only [stravaLoop, h l (List.mem_cons_self l rest), Bool.false_eq_true, if_false]
    exact ih (fun x hx => h x (List.mem_cons_of_mem l hx))

theorem stravaLoop_append (pre suf : List SocialLink) (acc : String × String)
    (h : ∀ x ∈ pre, x.childTexts.contains ("strava") = true →
      (lastSlashIdx x.href).isSome = true) :
    ∃ acc2, stravaLoop (pre ++ suf) acc = stravaLoop suf acc2 := by
  induction pre generalizing acc with
  | nil => exact ⟨acc, rfl⟩
  | cons p ps ih =>
    have hps : ∀ x ∈ ps, x.childTexts.contains ("strava") = true →
        (lastSlashIdx x.href).isSome = true :=
      fun x hx => h x (List.mem_cons_of_mem p hx)
    cases hm : p.childTexts.contains ("strava") with
    | false =>
      simp only [List.cons_append, stravaLoop, hm, Bool.false_eq_true, if_false]
      exact ih acc hps
    | true =>
      obtain ⟨j, hj⟩ := Option.isSome_iff_exists.mp
        (h p (List.mem_cons_self p ps) hm)
      simp only [List.cons_append, stravaLoop, hm, if_true, hj]
      exact ih _ hps

/-- C6 amended: get_strava scans the social-links list, but the Python test
`'strava' in link` on a tag checks whether one of the tag's child nodes is
the exact string `strava`, not whether the href contains that substring. For
the last entry with such a child text it returns that entry's href as the
link and the path segment after the final `/` as the id; for every document
with no such entry it returns two empty strings without raising. -/
theorem c6_strava_amended :
    (∀ links : List SocialLink,
      (∀ l ∈ links, l.childTexts.contains ("strava") = false) →
      get_strava links = some (("" : String), ("" : String))) ∧
    (∀ (pre : List SocialLink) (l : SocialLink) (post : List SocialLink) (i : Nat),
      l.childTexts.contains ("strava") = true →
      lastSlashIdx l.href = some i →
      (∀ x ∈ post, x.childTexts.contains ("strava") = false) →
      (∀ x ∈ pre, x.childTexts.contains ("strava") = true →
        (lastSlashIdx x.href).isSome = true) →
      get_strava (pre ++ l :: post) =
        some (l.href, pySliceFrom l.href ((i : Int) + 1))) := by
  constructor
  · intro links h
    exact stravaLoop_no_match links _ h
  · intro pre l post i hl hslash hpost hpre
    unfold get_strava
    obtain ⟨acc2, hacc⟩ := stravaLoop_append pre (l :: post) (("" : String), ("" : String)) hpre
    rw [hacc]
    simp only [stravaLoop, hl, if_true, hslash]
    exact stravaLoop_no_match post _ hpost

/-- Witness for c6_strava_amended: a single matching entry (child text exactly
`strava`) yields its href and trailing path segment. -/
theorem c6_strava_witness :
    get_strava [⟨("https://www.strava.com/athletes/123"), [("strava")]⟩] =
      some (("https://www.strava.com/athletes/123" : String), ("123" : String)) := by
  have h := c6_strava_amended.2 []
    ⟨("https://www.strava.com/athletes/123"), [("strava")]⟩ [] 31
    (by decide) (by decide) (by decide) (by decide)
  exact h.trans (by decide)

theorem replaceAux_nil (pat rep : List Char) (fuel : Nat) :
    replaceAux pat rep fuel [] = [] := by
  cases fuel <;> rfl

theorem replaceAux_head_ne (fuel : Nat) (d : Char) (ds : List Char)
    (h : (' ' == d) = false) :
    matchesAt [' '] (replaceAux [' ', ' '] [' '] fuel (d :: ds)) = false := by
  cases fuel with
  | zero => simp [replaceAux, matchesAt, h]
  | succ f =>
    have hm : matchesAt [' ', ' '] (d :: ds) = false := by
      simp [matchesAt, h]
    simp [replaceAux, hm, matchesAt, h]

theorem replaceAux_no_double :
    ∀ (fuel : Nat) (l : List Char), l.length ≤ fuel →
      hasSub [' ', ' ', ' '] l = false →
      hasSub [' ', ' '] (replaceAux [' ', ' '] [' '] fuel l) = false := by
  intro fuel
  induction fuel with
  | zero =>
    intro l hlen _
    have hl : l = [] := List.eq_nil_of_length_eq_zero (Nat.le_zero.mp hlen)
    subst hl
    rfl
  | succ f ih =>
    intro l hlen htrip
    cases l with
    | nil => rfl
    | cons c cs =>
      cases hm : matchesAt [' ', ' '] (c :: cs) with
      | true =>
        have hm2 := hm
        simp only [matchesAt] at hm2
        rw [Bool.and_eq_true] at hm2
        obtain ⟨h1, h2⟩ := hm2
        have hc : c = ' ' := (eq_of_beq h1).symm
        subst hc
        cases cs with
        | nil => simp [matchesAt] at h2
        | cons c2 cs2 =>
          simp only [matchesAt, Bool.and_true] at h2
          have hc2 : c2 = ' ' := (eq_of_beq h2).symm
          subst hc2
          simp only [hasSub, Bool.or_eq_false_iff] at htrip
          obtain ⟨hM1, hM2, hcs2⟩ := htrip
          simp only [matchesAt, beq_self_eq_true, Bool.true_and] at hM1
          have hlen2 : cs2.length ≤ f := by
            simp only [List.length_cons] at hlen
            omega
          simp only [replaceAux, hm, if_true]
          simp only [List.length_cons, List.length_nil, List.drop_succ_cons,
            List.drop_zero, List.singleton_append]
          simp only [hasSub, Bool.or_eq_false_iff]
          refine ⟨?_, ih cs2 hlen2 hcs2⟩
          simp only [matchesAt, beq_self_eq_true, Bool.true_and]
          cases cs2 with
          | nil => rw [replaceAux_nil]; rfl
          | cons d ds =>
            simp only [matchesAt, Bool.and_true] at hM1
            exact replaceAux_head_ne f d ds hM1
      | false =>
        simp only [hasSub, Bool.or_eq_false_iff] at htrip
        obtain ⟨hM1, hrest⟩ := htrip
        have hlen2 : cs.length ≤ f := by
          simp only [List.length_cons] at hlen
          omega
        simp only [replaceAux, hm, Bool.false_eq_true, if_false]
        simp only [hasSub, Bool.or_eq_false_iff]
        refine ⟨?_, ih cs hlen2 hrest⟩
        simp only [matchesAt]
        cases hc : (' ' == c) with
        | false => simp
        | true =>
          have hceq : c = ' ' := (eq_of_beq hc).symm
          subst hceq
          simp only [beq_self_eq_true, Bool.true_and]
          simp only [matchesAt, beq_self_eq_true, Bool.true_and] at hm
          cases cs with
          | nil => rw [replaceAux_nil]; rfl
          | cons d ds =>
            simp only [matchesAt, Bool.and_true] at hm
            exact replaceAux_head_ne f d ds hm

/-- C9 amended: get_name performs one left-to-right non-overlapping
replacement of double spaces by single spaces, so `John  Doe` yields
`John Doe`; the result is guaranteed free of double spaces only when the
title contains no run of three or more spaces (a triple space survives as a
double, see the counterexample). -/
theorem c9_name_single_pass :
    (∀ s : String, pyContains s ("   ") = false →
      pyContains (get_name s) ("  ") = false) ∧
    get_name ("John  Doe") = ("John Doe" : String) := by
  constructor
  · intro s h
    unfold get_name
    cases hc : pyContains s ("  ") with
    | false =>
      simp only [hc, Bool.false_eq_true, if_false]
    | true =>
      simp only [hc, if_true]
      show hasSub [' ', ' '] (replaceAux [' ', ' '] [' '] s.data.length s.data) = false
      exact replaceAux_no_double s.data.length s.data (Nat.le_refl _) h
  · rfl

/-- Witness for c9_name_single_pass at a concrete triple-space-free title. -/
theorem c9_name_witness : pyContains (get_name ("a  b c")) ("  ") = false :=
  c9_name_single_pass.1 ("a  b c") (by decide)

theorem listMapM_length {α β : Type} (f : α → Option β) :
    ∀ (l : List α) (out : List β), listMapM f l = some out → out.length = l.length := by
  intro l
  induction l with
  | nil =>
    intro out h
    simp only [listMapM, Option.some.injEq] at h
    rw [← h]
    rfl
  | cons a l ih =>
    intro out h
    cases hfa : f a with
    | none => simp [listMapM, hfa] at h
    | some b =>
      cases hl : listMapM f l with
      | none => simp [listMapM, hfa, hl] at h
      | some bs =>
        simp [listMapM, hfa, hl] at h
        subst h
        simp [ih bs hl]

theorem listMapM_congr {α β : Type} (f g : α → Option β) (h : ∀ a, f a = g a) :
    ∀ l : List α, listMapM f l = listMapM g l := by
  intro l
  induction l with
  | nil => rfl
  | cons a l ih => simp only [listMapM, h a, ih]

theorem enumFrom_filter_ne_last {α : Type} :
    ∀ (l : List α) (k : Nat),
      (List.enumFrom k l).filter (fun p => p.1 != k + l.length - 1) =
        List.enumFrom k l.dropLast := by
  intro l
  induction l with
  | nil => intro k; rfl
  | cons x xs ih =>
    intro k
    cases xs with
    | nil =>
      simp [List.enumFrom, List.filter, List.dropLast]
    | cons y ys =>
      have hcond : (k != k + (x :: y :: ys).length - 1) = true := by
        simp only [List.length_cons, bne_iff_ne, ne_eq]
        omega
      have harith : k + (x :: y :: ys).length - 1 = (k + 1) + (y :: ys).length - 1 := by
        simp only [List.length_cons]
        omega
      calc (List.enumFrom k (x :: y :: ys)).filter
              (fun p => p.1 != k + (x :: y :: ys).length - 1)
          = (k, x) :: (List.enumFrom (k + 1) (y :: ys)).filter
              (fun p => p.1 != k + (x :: y :: ys).length - 1) := by
            simp only [List.enumFrom, List.filter_cons, hcond, if_true]
        _ = (k, x) :: (List.enumFrom (k + 1) (y :: ys)).filter
              (fun p => p.1 != (k + 1) + (y :: ys).length - 1) := by
            simp only [harith]
        _ = (k, x) :: List.enumFrom (k + 1) ((y :: ys).dropLast) := by
            rw [ih (k + 1)]
        _ = List.enumFrom k ((x :: y :: ys).dropLast) := by
            simp [List.dropLast, List.enumFrom]

theorem listMapM_enumFrom {β γ : Type} (g : β → Option γ) :
    ∀ (l : List β) (k : Nat),
      listMapM (fun p => g p.2) (List.enumFrom k l) = listMapM g l := by
  intro l
  induction l with
  | nil => intro k; rfl
  | cons x xs ih =>
    intro k
    simp only [List.enumFrom, listMapM]
    simp only [ih (k + 1)]

theorem processPage_eq (rows : List (List Cell)) :
    processPage rows = listMapM processRow rows.dropLast := by
  have h := enumFrom_filter_ne_last rows 0
  simp only [Nat.zero_add] at h
  unfold processPage
  show listMapM (fun p => processRow p.2)
      ((List.enumFrom 0 rows).filter (fun p => p.1 != rows.length - 1)) = _
  rw [h, listMapM_enumFrom]

theorem listMapM_processPage_lengths :
    ∀ (pages : List (List (List Cell))) (outs : List (List (List String))),
      listMapM processPage pages = some outs →
      outs.map List.length = pages.map (fun p => p.length - 1) := by
  intro pages
  induction pages with
  | nil =>
    intro outs h
    simp only [listMapM, Option.some.injEq] at h
    rw [← h]
    rfl
  | cons p ps ih =>
    intro outs h
    cases hp : processPage p with
    | none => simp [listMapM, hp] at h
    | some o =>
      cases hps : listMapM processPage ps with
      | none => simp [listMapM, hp, hps] at h
      | some os =>
        simp [listMapM, hp, hps] at h
        subst h
        have hlen : o.length = p.length - 1 := by
          have he := processPage_eq p
          rw [he] at hp
          have hd := listMapM_length processRow p.dropLast o hp
          rw [List.length_dropLast] at hd
          exact hd
        simp [List.map_cons, hlen, ih os hps]

/-- C3: for a list of fetched result pages (each ending in the source's
trailing artifact row), get_race_history produces exactly
`sum over pages of (rows - 1)` records: the last row of each page is
dropped, every other row becomes one record, and the records are the
concatenation, in ascending page order, of each page's remaining rows in
document order. -/
theorem c3_race_history_concat (pages : List (List (List Cell)))
    (out : List (List String))
    (hne : ∀ p ∈ pages, p ≠ [])
    (h : get_race_history pages = some out) :
    out.length = (pages.map (fun p => p.length - 1)).sum ∧
    ∃ outs, listMapM (fun p => listMapM processRow p.dropLast) pages = some outs ∧
      out = outs.flatten := by
  unfold get_race_history at h
  cases houts : listMapM processPage pages with
  | none => rw [houts] at h; simp at h
  | some outs =>
    rw [houts] at h
    simp only [Option.map_some'] at h
    have hout : outs.flatten = out := Option.some.inj h
    refine ⟨?_, outs, ?_, hout.symm⟩
    · rw [← hout, List.length_flatten, listMapM_processPage_lengths pages outs houts]
    · exact (listMapM_congr processPage _ processPage_eq pages).symm.trans houts

/-- Witness for c3_race_history_concat at the two-page fixture: three records
from pages of two and three rows. -/
theorem c3_race_history_witness :
    raceOut.length = (racePages.map (fun p => p.length - 1)).sum ∧
    ∃ outs, listMapM (fun p => listMapM processRow p.dropLast) racePages = some outs ∧
      raceOut = outs.flatten :=
  c3_race_history_concat racePages raceOut (by decide) (by decide)

theorem cellFields_length (j : Nat) (c : Cell) (out : List String)
    (h : cellFields j c = some out) : out.length = colWidth j := by
  unfold cellFields at h
  by_cases h0 : j = 0
  · rw [if_pos h0] at h
    rw [← Option.some.inj h]
    simp [colWidth, h0]
  · rw [if_neg h0] at h
    by_cases h3 : j = 3
    · rw [if_pos h3] at h
      cases hat : c.anchorText with
      | none => simp [raceFields, hat] at h
      | some nm =>
        cases hah : c.anchorHref with
        | none => simp [raceFields, hat, hah] at h
        | some href =>
          cases hpn : pyGet (pySplitChar href '/') 1 with
          | none => simp [raceFields, hat, hah, hpn] at h
          | some pn =>
            cases hpy : pyGet (pySplitChar href '/') (-2) with
            | none => simp [raceFields, hat, hah, hpn, hpy] at h
            | some py =>
              simp [raceFields, hat, hah, hpn, hpy] at h
              rw [← h]
              simp [colWidth, h0, h3]
    · rw [if_neg h3] at h
      rw [← Option.some.inj h]
      simp [colWidth, h0, h3]

theorem processCells_get :
    ∀ (cells : List Cell) (k : Nat) (out : List String),
      processCells k cells = some out →
      ∀ (i : Nat) (c : Cell), cells[i]? = some c →
        k + i ≠ 0 → k + i ≠ 3 →
        out[posFrom k i]? = some (dashIfEmpty c.text) := by
  intro cells
  induction cells with
  | nil =>
    intro k out h i c hc h0 h3
    simp at hc
  | cons c0 rest ih =>
    intro k out h i c hc h0 h3
    cases hhd : cellFields k c0 with
    | none => simp [processCells, hhd] at h
    | some hd =>
      cases htl : processCells (k + 1) rest with
      | none => simp [processCells, hhd, htl] at h
      | some tl =>
        simp [processCells, hhd, htl] at h
        subst h
        cases i with
        | zero =>
          have hk0 : k ≠ 0 := by omega
          have hk3 : k ≠ 3 := by omega
          have hc0 : c0 = c := by simpa using hc
          subst hc0
          have hhd2 : hd = [dashIfEmpty c0.text] := by
            simp [cellFields, hk0, hk3] at hhd
            exact hhd.symm
          subst hhd2
          simp [posFrom]
        | succ m =>
          have hrest : rest[m]? = some c := by simpa using hc
          have hlen : hd.length = colWidth k := cellFields_length k c0 hd hhd
          show (hd ++ tl)[posFrom k (m + 1)]? = some (dashIfEmpty c.text)
          have hpos : posFrom k (m + 1) = colWidth k + posFrom (k + 1) m := rfl
          rw [hpos, ← hlen,
            List.getElem?_append_right (by omega : hd.length ≤ hd.length + posFrom (k + 1) m)]
          simp only [Nat.add_sub_cancel_left]
          exact ih (k + 1) tl htl m c hrest (by omega) (by omega)

/-- C7: in a processed race-result row, every column other than the
row-index column (0) and the race column (3) is stored at its record
position as its cell text with empty text coerced to the sentinel `-`: the
stored value is exactly `-` when the text is empty, the text verbatim when
not, and never the empty string. -/
theorem c7_dash_sentinel (cells : List Cell) (out : List String) (j : Nat) (c : Cell)
    (h : processRow cells = some out) (hc : cells[j]? = some c)
    (h0 : j ≠ 0) (h3 : j ≠ 3) :
    out[posFrom 0 j]? = some (dashIfEmpty c.text) ∧
    dashIfEmpty c.text ≠ "" ∧
    (c.text = "" → dashIfEmpty c.text = ("-" : String)) ∧
    (c.text ≠ "" → dashIfEmpty c.text = c.text) := by
  refine ⟨processCells_get cells 0 out h j c hc (by omega) (by omega), ?_, ?_, ?_⟩
  · by_cases ht : c.text = ""
    · simp only [dashIfEmpty, ht, if_true]
      decide
    · simp only [dashIfEmpty, ht, if_false]
      exact ht
  · intro ht
    simp [dashIfEmpty, ht]
  · intro ht
    simp [dashIfEmpty, ht]

/-- Witness for c7_dash_sentinel: the empty distance cell (column 4) of a
concrete row is stored as the sentinel at record position 6. -/
theorem c7_dash_witness :
    ([("3.1"), ("GC"), ("T"), ("race/t/2023/s"), ("t"), ("2023"), ("-")] :
      List String)[posFrom 0 4]? = some (dashIfEmpty ("")) :=
  (c7_dash_sentinel
    [⟨("1"), none, none⟩, ⟨("3.1"), none, none⟩, ⟨("GC"), none, none⟩,
     ⟨(""), some ("T"), some ("race/t/2023/s")⟩, ⟨(""), none, none⟩]
    [("3.1"), ("GC"), ("T"), ("race/t/2023/s"), ("t"), ("2023"), ("-")]
    4 ⟨(""), none, none⟩ (by decide) (by decide) (by decide) (by decide)).1
